import Mathlib

/-!
Shallow embedding of `build_task_relationships` from
`src/get_project_tasks.py` (lines 842–988), together with the helper
lookup structures it builds, and proofs settling the specification
claims about it.

Modelling conventions:
* A Python dict is an association list built only through `dset`
  (replace the first binding of the key in place, otherwise append),
  which reproduces Python's insertion-ordered dict semantics; `dget`
  reads the first binding.
* Python truthiness at the exact points the source tests it:
  `item['parent'].get('number')` is truthy iff the number is present and
  nonzero; `if parent_id:` is truthy iff the id string is nonempty;
  `if test_id:` iff the field value is nonempty; dict truthiness is
  non-emptiness of the association list.
* `str.lower()` maps `Char.toLower` over the characters (what
  `String.toLower` does, spelled over the character list so concrete
  instances reduce in the kernel), `str.split()` splits on whitespace
  runs discarding empty fragments, `len` on a string is
  `String.length`.
-/

namespace GetProjectTasks

/-- One project item as consumed by `build_task_relationships`:
`id` is the opaque project-item id, `number` the optional issue number
(`item.get('number')`), `parent` the number carried by the optional
parent reference (`item['parent'].get('number')`, collapsed to `none`
when the parent dict is absent, empty, or has no number), `sub_issues`
the numbers carried by the declared sub-issue references, and
`project_fields` the custom field mapping (`item['project_fields']`). -/
structure Item where
  id : String
  number : Option Nat := none
  title : String := ""
  parent : Option Nat := none
  sub_issues : List (Option Nat) := []
  project_fields : List (String × String) := []
deriving Repr, DecidableEq

/-- Reading a Python dict: value of the first binding of the key. -/
def dget {κ α : Type} [DecidableEq κ] : List (κ × α) → κ → Option α
  | [], _ => none
  | (k', v) :: d, k => if k' = k then some v else dget d k

/-- Reading with a default, Python's `d.get(k, v)`. -/
def dgetD {κ α : Type} [DecidableEq κ] (d : List (κ × α)) (k : κ) (v : α) : α :=
  (dget d k).getD v

/-- Writing a Python dict entry: replace the first binding in place,
otherwise append at the end (insertion order preserved). -/
def dset {κ α : Type} [DecidableEq κ] : List (κ × α) → κ → α → List (κ × α)
  | [], k, v => [(k, v)]
  | (k', v') :: d, k, v => if k' = k then (k, v) :: d else (k', v') :: dset d k v

/-- The `relationships` record built by `build_task_relationships`. -/
structure Rel where
  children : List (String × List String)
  parents : List (String × String)
  roots : List String
  orphans : List String
deriving Repr, DecidableEq

/-- The index `number_to_id = {item['number']: item['id'] for item in items if item.get('number')}`:
issue number to project item id, truthy numbers only, later items win. -/
def number_to_id (items : List Item) : List (Nat × String) :=
  items.foldl
    (fun m it =>
      match it.number with
      | some n => if n ≠ 0 then dset m n it.id else m
      | none => m) []

/-- Resolving one declared reference the way the source does: the
number must be truthy (present and nonzero), the lookup in
`number_to_id` must succeed, and the resulting id must be truthy
(nonempty). -/
def resolveRef (numToId : List (Nat × String)) : Option Nat → Option String
  | some n =>
      if n ≠ 0 then
        match dget numToId n with
        | some s => if s ≠ "" then some s else none
        | none => none
      else none
  | none => none

/-- The insertion `if parent_id not in children: children[parent_id] = []` followed by
`if item_id not in children[parent_id]: children[parent_id].append(item_id)`. -/
def addChild (st : Rel) (p c : String) : Rel :=
  let cur := dgetD st.children p []
  let cur' := if c ∈ cur then cur else cur ++ [c]
  { st with children := dset st.children p cur' }

/-- Tier 1 part of the per-item processing: the item's own `parent`
reference; when it resolves, add the child edge and set the parent
unconditionally. -/
def parentStep (numToId : List (Nat × String)) (st : Rel) (item : Item) : Rel :=
  match resolveRef numToId item.parent with
  | some pid =>
      let s := addChild st pid item.id
      { s with parents := dset s.parents item.id pid }
  | none => st

/-- Tier 2 part, one declared sub-issue: when the reference resolves,
add the child edge and set the parent only if not already set. -/
def subStep (numToId : List (Nat × String)) (itemId : String) (s : Rel)
    (sub : Option Nat) : Rel :=
  match resolveRef numToId sub with
  | some sid =>
      let s1 := addChild s itemId sid
      if (dget s1.parents sid).isSome then s1
      else { s1 with parents := dset s1.parents sid itemId }
  | none => s

/-- Processing of a single item by the first loop of
`build_task_relationships` (Tier 1: the item's own `parent` reference,
then Tier 2: its `sub_issues` references, which set `parents` only when
not already set). -/
def step12 (numToId : List (Nat × String)) (st : Rel) (item : Item) : Rel :=
  let st1 := parentStep numToId st item
  if item.sub_issues.isEmpty then st1
  else item.sub_issues.foldl (subStep numToId item.id) st1

/-- The test `'Acceptance' in item.get('project_fields', {})`. -/
def isRequirement (it : Item) : Bool :=
  (dget it.project_fields "Acceptance").isSome

/-- The `elif 'Test type' in fields` bucket. -/
def isTestCase (it : Item) : Bool :=
  !isRequirement it && (dget it.project_fields "Test type").isSome

/-- Python's `title.lower()`: character-wise lower-casing, spelled over the
underlying character list so that concrete instances reduce inside the
kernel (`String.toLower` performs the same `Char.toLower` mapping). -/
def lower (s : String) : String :=
  String.mk (s.data.map Char.toLower)

/-- Splitting on whitespace runs while dropping empty fragments,
accumulating the current word in reverse. -/
def wordsAux : List Char → List Char → List String
  | [], acc => if acc.isEmpty then [] else [String.mk acc.reverse]
  | c :: cs, acc =>
      if c.isWhitespace then
        if acc.isEmpty then wordsAux cs []
        else String.mk acc.reverse :: wordsAux cs []
      else wordsAux cs (c :: acc)

/-- Python's `title.lower().split()`: lower-case, split on whitespace, drop
empty fragments. -/
def titleTerms (s : String) : List String :=
  wordsAux (lower s).data []

/-- The significant common terms of a requirement title and a test
title: members of both token sets of length greater than 3. -/
def significant_terms (reqTitle testTitle : String) : List String :=
  (titleTerms reqTitle).filter fun t =>
    (titleTerms testTitle).contains t && decide (t.length > 3)

/-- The per-pair Tier 3 test: both lowered titles truthy and at least
one significant common term. -/
def titlesMatch (reqTitle testTitle : String) : Bool :=
  !(lower testTitle).data.isEmpty && !(lower reqTitle).data.isEmpty &&
    !(significant_terms reqTitle testTitle).isEmpty

/-- The list `related_tests` computed for one requirement in Tier 3. -/
def related_tests (tests : List Item) (req : Item) : List String :=
  (tests.filter fun t => titlesMatch req.title t.title).map Item.id

/-- The loop `for test_id in related: parents[test_id] = req_id`
(also the analogous loop of Tier 4). -/
def assignParents (pid : String) (cs : List String) (st : Rel) : Rel :=
  cs.foldl (fun s2 c => { s2 with parents := dset s2.parents c pid }) st

/-- One requirement's turn in Tier 3: when the related test list is
nonempty, assign it as the requirement's children and point each
related test's parent at the requirement (overwriting). -/
def tier3Step (tests : List Item) (s : Rel) (req : Item) : Rel :=
  let related := related_tests tests req
  if related.isEmpty then s
  else
    assignParents req.id related
      { s with children := dset s.children req.id related }

/-- Tier 3: the loop over requirements. -/
def tier3 (reqs tests : List Item) (st : Rel) : Rel :=
  reqs.foldl (tier3Step tests) st

/-- The lookup `test.get('project_fields', {}).get('Test ID', '')`. -/
def testId (it : Item) : String :=
  dgetD it.project_fields "Test ID" ""

/-- One step of the `test_id_groups` grouping loop: append the test to
its (truthy) `Test ID` bucket, creating the bucket if needed. -/
def tgStep (gs : List (String × List Item)) (t : Item) : List (String × List Item) :=
  let tid := testId t
  if tid = "" then gs else dset gs tid (dgetD gs tid [] ++ [t])

/-- The dict `test_id_groups`: test cases grouped by truthy `Test ID`, insertion
ordered. -/
def test_id_groups (tests : List Item) : List (String × List Item) :=
  tests.foldl tgStep []

/-- Processing of one `Test ID` group by Tier 4: in a group of more
than one member, the first becomes the parent of the rest. -/
def tier4Step (s : Rel) (kg : String × List Item) : Rel :=
  match kg.2 with
  | [] => s
  | parentTest :: rest =>
      if rest.isEmpty then s
      else
        let childIds := rest.map Item.id
        if childIds.isEmpty then s
        else
          assignParents parentTest.id childIds
            { s with children := dset s.children parentTest.id childIds }

/-- Tier 4: only when `children` is still empty and there are test
cases, group the test cases by `Test ID` and process each group. -/
def tier4 (tests : List Item) (st : Rel) : Rel :=
  if st.children.isEmpty && !tests.isEmpty then
    (test_id_groups tests).foldl tier4Step st
  else st

/-- The two classification loops at the end of the function: an item is
a root when it is a key of `children` and not of `parents`, an orphan
when it is a key of neither. -/
def classify (items : List Item) (st : Rel) : Rel :=
  let st1 :=
    items.foldl
      (fun s it =>
        if (dget st.children it.id).isSome && !(dget st.parents it.id).isSome
        then { s with roots := s.roots ++ [it.id] } else s)
      st
  items.foldl
    (fun s it =>
      if !(dget st.children it.id).isSome && !(dget st.parents it.id).isSome
      then { s with orphans := s.orphans ++ [it.id] } else s)
    st1

/-- The state after the declared-links loop (Tiers 1 and 2). -/
def tier12 (items : List Item) : Rel :=
  items.foldl (step12 (number_to_id items)) ⟨[], [], [], []⟩

/-- The function `build_task_relationships(items)`: Tier 1–2 over declared links;
only when those produced nothing, Tier 3 lexical matching between the
`Acceptance` and `Test type` buckets followed by Tier 4 `Test ID`
grouping; finally root/orphan classification. -/
def build_task_relationships (items : List Item) : Rel :=
  let st1 := tier12 items
  let st2 :=
    if st1.children.isEmpty && st1.parents.isEmpty then
      let reqs := items.filter isRequirement
      let tests := items.filter isTestCase
      tier4 tests (tier3 reqs tests st1)
    else st1
  classify items st2

/-- One `children_of` edge of the produced graph. -/
def hasEdge (g : Rel) (p c : String) : Prop :=
  c ∈ dgetD g.children p []

/-- Reachability: `x` is reachable from `p` by following one or more `children_of`
edges. -/
def isAncestor (g : Rel) (p x : String) : Prop :=
  Relation.TransGen (hasEdge g) p x

/-! ### Association-list lemmas -/

theorem dget_dset {κ α : Type} [DecidableEq κ] (d : List (κ × α)) (k : κ) (v : α) (k' : κ) :
    dget (dset d k v) k' = if k' = k then some v else dget d k' := by
  induction d with
  | nil =>
    by_cases h : k' = k
    · simp [dset, dget, h]
    · simp [dset, dget, h, Ne.symm h]
  | cons hd tl ih =>
    obtain ⟨k₀, v₀⟩ := hd
    by_cases h0 : k₀ = k
    · subst h0
      by_cases h1 : k' = k₀
      · simp [dset, dget, h1]
      · simp [dset, dget, h1, Ne.symm h1]
    · by_cases h1 : k₀ = k'
      · subst h1
        have h2 : ¬k₀ = k := h0
        simp [dset, dget, h2, Ne.symm h2]
      · simp [dset, dget, h0, h1, ih]

theorem dget_ne_nil {κ α : Type} [DecidableEq κ] {d : List (κ × α)} {k : κ} {v : α}
    (h : dget d k = some v) : d ≠ [] := by
  intro hnil; subst hnil; simp [dget] at h

theorem dget_mem {κ α : Type} [DecidableEq κ] {d : List (κ × α)} {k : κ} {v : α}
    (h : dget d k = some v) : (k, v) ∈ d := by
  induction d with
  | nil => simp [dget] at h
  | cons hd tl ih =>
    obtain ⟨k₀, v₀⟩ := hd
    by_cases h0 : k₀ = k
    · subst h0
      simp [dget] at h
      simp [h]
    · simp [dget, h0] at h
      exact List.mem_cons_of_mem _ (ih h)

theorem mem_dget_of_nodup_keys {κ α : Type} [DecidableEq κ] {d : List (κ × α)} {k : κ} {v : α}
    (hnd : (d.map Prod.fst).Nodup) (h : (k, v) ∈ d) : dget d k = some v := by
  induction d with
  | nil => simp at h
  | cons hd tl ih =>
    obtain ⟨k₀, v₀⟩ := hd
    rw [List.map_cons, List.nodup_cons] at hnd
    rcases List.mem_cons.mp h with h' | h'
    · cases h'
      simp [dget]
    · have hk : k₀ ≠ k := by
        intro he; subst he
        exact hnd.1 (List.mem_map.mpr ⟨(k₀, v), h', rfl⟩)
      simp [dget, hk]
      exact ih hnd.2 h'

theorem dset_keys_mem {κ α : Type} [DecidableEq κ] {d : List (κ × α)} {k : κ} {v : α}
    (h : (dget d k).isSome) : (dset d k v).map Prod.fst = d.map Prod.fst := by
  induction d with
  | nil => simp [dget] at h
  | cons hd tl ih =>
    obtain ⟨k₀, v₀⟩ := hd
    by_cases h0 : k₀ = k
    · subst h0; simp [dset]
    · simp [dget, h0] at h
      simp [dset, h0, ih h]

theorem dset_keys_new {κ α : Type} [DecidableEq κ] {d : List (κ × α)} {k : κ} {v : α}
    (h : dget d k = none) : (dset d k v).map Prod.fst = d.map Prod.fst ++ [k] := by
  induction d with
  | nil => simp [dset]
  | cons hd tl ih =>
    obtain ⟨k₀, v₀⟩ := hd
    by_cases h0 : k₀ = k
    · subst h0; simp [dget] at h
    · simp [dget, h0] at h
      simp [dset, h0, ih h]

theorem mem_dset {κ α : Type} [DecidableEq κ] {d : List (κ × α)} {k : κ} {v : α}
    {k' : κ} {v' : α} (h : (k', v') ∈ dset d k v) :
    (k' = k ∧ v' = v) ∨ ((k', v') ∈ d ∧ k' ≠ k) ∨ (k', v') ∈ d := by
  induction d with
  | nil => simp [dset] at h; exact Or.inl h
  | cons hd tl ih =>
    obtain ⟨k₀, v₀⟩ := hd
    by_cases h0 : k₀ = k
    · subst h0
      simp [dset] at h
      rcases h with h | h
      · exact Or.inl h
      · exact Or.inr (Or.inr (List.mem_cons_of_mem _ h))
    · simp [dset, h0] at h
      rcases h with h | h
      · exact Or.inr (Or.inr (by simp [h]))
      · rcases ih h with h' | h' | h'
        · exact Or.inl h'
        · exact Or.inr (Or.inl ⟨List.mem_cons_of_mem _ h'.1, h'.2⟩)
        · exact Or.inr (Or.inr (List.mem_cons_of_mem _ h'))

/-- A fold preserves any predicate its step preserves. -/
theorem foldl_pred {α β : Type} (P : β → Prop) (f : β → α → β) (l : List α) (st : β)
    (h : P st) (hstep : ∀ s a, a ∈ l → P s → P (f s a)) : P (l.foldl f st) := by
  induction l generalizing st with
  | nil => exact h
  | cons a l ih =>
    exact ih (f st a) (hstep st a (List.mem_cons_self a l) h)
      (fun s b hb hs => hstep s b (List.mem_cons_of_mem a hb) hs)

/-! ### `addChild` and `step12` lemmas -/

theorem addChild_parents (st : Rel) (p c : String) :
    (addChild st p c).parents = st.parents := rfl

theorem addChild_roots (st : Rel) (p c : String) :
    (addChild st p c).roots = st.roots := rfl

theorem addChild_orphans (st : Rel) (p c : String) :
    (addChild st p c).orphans = st.orphans := rfl

theorem addChild_children (st : Rel) (p c : String) :
    (addChild st p c).children =
      dset st.children p (if c ∈ dgetD st.children p [] then dgetD st.children p []
        else dgetD st.children p [] ++ [c]) := rfl

theorem addChild_mem (st : Rel) (p c : String) :
    c ∈ dgetD (addChild st p c).children p [] := by
  rw [addChild_children]
  unfold dgetD
  rw [dget_dset, if_pos rfl, Option.getD_some]
  by_cases h : c ∈ (dget st.children p).getD []
  · rw [if_pos h]; exact h
  · rw [if_neg h]; exact List.mem_append_right _ (List.mem_singleton_self c)

theorem addChild_mono {st : Rel} {q x : String} (p c : String)
    (h : x ∈ dgetD st.children q []) : x ∈ dgetD (addChild st p c).children q [] := by
  rw [addChild_children]
  unfold dgetD at h ⊢
  rw [dget_dset]
  by_cases hq : q = p
  · subst hq
    rw [if_pos rfl, Option.getD_some]
    by_cases hc : c ∈ (dget st.children q).getD []
    · rw [if_pos hc]; exact h
    · rw [if_neg hc]; exact List.mem_append_left _ h
  · rw [if_neg hq]; exact h

theorem addChild_get {st : Rel} {q : String} {cs : List String} (p c : String)
    (h : dget (addChild st p c).children q = some cs) :
    (q = p ∧ cs = (if c ∈ dgetD st.children p [] then dgetD st.children p []
      else dgetD st.children p [] ++ [c])) ∨ (q ≠ p ∧ dget st.children q = some cs) := by
  rw [addChild_children, dget_dset] at h
  by_cases hq : q = p
  · rw [if_pos hq] at h
    exact Or.inl ⟨hq, (Option.some_inj.mp h).symm⟩
  · rw [if_neg hq] at h
    exact Or.inr ⟨hq, h⟩

instance (g : Rel) (p c : String) : Decidable (hasEdge g p c) :=
  inferInstanceAs (Decidable (c ∈ dgetD g.children p []))

/-! ### Per-item lemmas for the declared-link loop -/

theorem parentStep_children_mono {st : Rel} {q x : String}
    (numToId : List (Nat × String)) (item : Item)
    (h : x ∈ dgetD st.children q []) :
    x ∈ dgetD (parentStep numToId st item).children q [] := by
  unfold parentStep
  cases hp : resolveRef numToId item.parent with
  | none => exact h
  | some pid => exact addChild_mono pid item.id h

theorem parentStep_parents_stable {st : Rel} {k v : String}
    (numToId : List (Nat × String)) (item : Item) (hne : item.id ≠ k)
    (h : dget st.parents k = some v) :
    dget (parentStep numToId st item).parents k = some v := by
  unfold parentStep
  cases hp : resolveRef numToId item.parent with
  | none => exact h
  | some pid =>
    show dget (dset (addChild st pid item.id).parents item.id pid) k = some v
    rw [dget_dset, if_neg (fun he => hne he.symm), addChild_parents]
    exact h

theorem subStep_children_mono {s : Rel} {q x : String}
    (numToId : List (Nat × String)) (itemId : String) (sub : Option Nat)
    (h : x ∈ dgetD s.children q []) :
    x ∈ dgetD (subStep numToId itemId s sub).children q [] := by
  unfold subStep
  cases hp : resolveRef numToId sub with
  | none => exact h
  | some sid =>
    by_cases hs : (dget (addChild s itemId sid).parents sid).isSome
    · simpa [hs] using addChild_mono itemId sid h
    · simpa [hs] using addChild_mono itemId sid h

theorem subStep_some {numToId : List (Nat × String)} {sub : Option Nat} {sid : String}
    (itemId : String) (s : Rel) (hp : resolveRef numToId sub = some sid) :
    subStep numToId itemId s sub =
      if (dget (addChild s itemId sid).parents sid).isSome then addChild s itemId sid
      else { addChild s itemId sid with
             parents := dset (addChild s itemId sid).parents sid itemId } := by
  unfold subStep
  rw [hp]

theorem subStep_none {numToId : List (Nat × String)} {sub : Option Nat}
    (itemId : String) (s : Rel) (hp : resolveRef numToId sub = none) :
    subStep numToId itemId s sub = s := by
  unfold subStep
  rw [hp]

theorem subStep_parents_some {s : Rel} {k v : String}
    (numToId : List (Nat × String)) (itemId : String) (sub : Option Nat)
    (h : dget s.parents k = some v) :
    dget (subStep numToId itemId s sub).parents k = some v := by
  cases hp : resolveRef numToId sub with
  | none => rw [subStep_none itemId s hp]; exact h
  | some sid =>
    rw [subStep_some itemId s hp, addChild_parents]
    by_cases hs : (dget s.parents sid).isSome
    · rw [if_pos hs, addChild_parents]; exact h
    · have hk : k ≠ sid := by
        intro he; subst he; rw [h] at hs; simp at hs
      rw [if_neg hs]
      show dget (dset (addChild s itemId sid).parents sid itemId) k = some v
      rw [dget_dset, if_neg hk, addChild_parents]
      exact h

theorem step12_children_mono {st : Rel} {q x : String}
    (numToId : List (Nat × String)) (item : Item)
    (h : x ∈ dgetD st.children q []) :
    x ∈ dgetD (step12 numToId st item).children q [] := by
  unfold step12
  by_cases he : item.sub_issues.isEmpty
  · simpa [he] using parentStep_children_mono numToId item h
  · simp only [he, if_false, Bool.false_eq_true]
    exact foldl_pred (fun (s : Rel) => x ∈ dgetD s.children q []) _ _ _
      (parentStep_children_mono numToId item h)
      (fun s a _ hs => subStep_children_mono numToId item.id a hs)

theorem step12_parents_stable {st : Rel} {k v : String}
    (numToId : List (Nat × String)) (item : Item) (hne : item.id ≠ k)
    (h : dget st.parents k = some v) :
    dget (step12 numToId st item).parents k = some v := by
  unfold step12
  by_cases he : item.sub_issues.isEmpty
  · simpa [he] using parentStep_parents_stable numToId item hne h
  · simp only [he, if_false, Bool.false_eq_true]
    exact foldl_pred (fun (s : Rel) => dget s.parents k = some v) _ _ _
      (parentStep_parents_stable numToId item hne h)
      (fun s a _ hs => subStep_parents_some numToId item.id a hs)

theorem step12_tier1 {st : Rel} {pid : String}
    (numToId : List (Nat × String)) (item : Item)
    (hp : resolveRef numToId item.parent = some pid) :
    dget (step12 numToId st item).parents item.id = some pid ∧
      item.id ∈ dgetD (step12 numToId st item).children pid [] := by
  have hps : dget (parentStep numToId st item).parents item.id = some pid := by
    unfold parentStep
    rw [hp]
    show dget (dset (addChild st pid item.id).parents item.id pid) item.id = some pid
    rw [dget_dset, if_pos rfl]
  have hcs : item.id ∈ dgetD (parentStep numToId st item).children pid [] := by
    unfold parentStep
    rw [hp]
    exact addChild_mem st pid item.id
  unfold step12
  by_cases he : item.sub_issues.isEmpty
  · simp [he, hps, hcs]
  · simp only [he, if_false, Bool.false_eq_true]
    exact foldl_pred
      (fun (s : Rel) => dget s.parents item.id = some pid ∧
        item.id ∈ dgetD s.children pid []) _ _ _
      ⟨hps, hcs⟩
      (fun s a _ hs =>
        ⟨subStep_parents_some numToId item.id a hs.1,
         subStep_children_mono numToId item.id a hs.2⟩)

/-! ### The classification loops leave the graph untouched -/

theorem classify_graph (items : List Item) (st : Rel) :
    (classify items st).children = st.children ∧ (classify items st).parents = st.parents := by
  unfold classify
  refine foldl_pred (fun (s : Rel) => s.children = st.children ∧ s.parents = st.parents) _ _ _
    ?_ ?_
  · refine foldl_pred (fun (s : Rel) => s.children = st.children ∧ s.parents = st.parents) _ _ _
      ⟨rfl, rfl⟩ ?_
    intro s a _ hs
    dsimp only
    split <;> exact hs
  · intro s a _ hs
    dsimp only
    split <;> exact hs

/-! ### Fold-level consequences of the per-item lemmas -/

theorem fold12_children_mono {q x : String} (numToId : List (Nat × String))
    (l : List Item) {st : Rel} (h : x ∈ dgetD st.children q []) :
    x ∈ dgetD (l.foldl (step12 numToId) st).children q [] :=
  foldl_pred (fun (s : Rel) => x ∈ dgetD s.children q []) _ _ _ h
    (fun _ a _ hs => step12_children_mono numToId a hs)

theorem fold12_parents_stable {k v : String} (numToId : List (Nat × String))
    (l : List Item) (hne : ∀ i ∈ l, i.id ≠ k) {st : Rel}
    (h : dget st.parents k = some v) :
    dget (l.foldl (step12 numToId) st).parents k = some v :=
  foldl_pred (fun (s : Rel) => dget s.parents k = some v) _ _ _ h
    (fun _ a ha hs => step12_parents_stable numToId a (hne a ha) hs)

theorem resolveRef_of_dget_none {m : List (Nat × String)} {n : Nat}
    (h : dget m n = none) : resolveRef m (some n) = none := by
  unfold resolveRef
  by_cases hn : n = 0
  · simp [hn]
  · simp [hn, h]

/-- When an item occurs in the collection with a unique id and its
declared parent reference resolves to `cid`, the Tier 1–2 loop leaves
`parents[item] = cid` and the child edge under `cid`. -/
theorem tier12_tier1_edge (items : List Item) (b : Item) (cid : String)
    (hmem : b ∈ items) (hnd : (items.map Item.id).Nodup)
    (hres : resolveRef (number_to_id items) b.parent = some cid) :
    dget (tier12 items).parents b.id = some cid ∧
      b.id ∈ dgetD (tier12 items).children cid [] := by
  obtain ⟨l1, l2, rfl⟩ := List.append_of_mem hmem
  have hno : ∀ i ∈ l2, i.id ≠ b.id := by
    intro i hi he
    rw [List.map_append, List.map_cons] at hnd
    have h2 := (List.nodup_cons.mp (hnd.of_append_right)).1
    exact h2 (he ▸ List.mem_map.mpr ⟨i, hi, rfl⟩)
  unfold tier12
  rw [List.foldl_append, List.foldl_cons]
  set stPre := l1.foldl (step12 (number_to_id (l1 ++ b :: l2))) ⟨[], [], [], []⟩
  obtain ⟨hps, hcs⟩ := @step12_tier1 stPre cid (number_to_id (l1 ++ b :: l2)) b hres
  exact ⟨fold12_parents_stable _ l2 hno hps, fold12_children_mono _ l2 hcs⟩

/-- When the Tier 1–2 loop produced anything, the Tier 3/4 block is
skipped and the final graph is exactly the declared-link graph. -/
theorem build_graph_of_declared (items : List Item)
    (h : (tier12 items).children ≠ [] ∨ (tier12 items).parents ≠ []) :
    (build_task_relationships items).children = (tier12 items).children ∧
      (build_task_relationships items).parents = (tier12 items).parents := by
  have hg : ((tier12 items).children.isEmpty && (tier12 items).parents.isEmpty) = false := by
    rcases h with h | h <;> simp [List.isEmpty_iff, h]
  unfold build_task_relationships
  simp only [hg, Bool.false_eq_true, if_false]
  exact classify_graph items (tier12 items)

/-! ### C7 -/

/-- C7. Tier gating: when the declared-link loop (Tiers 1–2)
contributed at least one edge (its `children` or `parents` dict is
nonempty), the Tier 3/4 inference block is skipped entirely, so the
final `children` and `parents` are exactly the declared-link ones. -/
theorem c7_tier_gating (items : List Item)
    (h : (tier12 items).children ≠ [] ∨ (tier12 items).parents ≠ []) :
    (build_task_relationships items).children = (tier12 items).children ∧
      (build_task_relationships items).parents = (tier12 items).parents :=
  build_graph_of_declared items h

theorem c7_witness :
    ((tier12 [{ id := "P", number := some 1 },
              { id := "C", number := some 2, parent := some 1 }]).children ≠ [] ∨
      (tier12 [{ id := "P", number := some 1 },
               { id := "C", number := some 2, parent := some 1 }]).parents ≠ []) ∧
    ((build_task_relationships
        [{ id := "P", number := some 1 },
         { id := "C", number := some 2, parent := some 1 }]).children =
      (tier12 [{ id := "P", number := some 1 },
               { id := "C", number := some 2, parent := some 1 }]).children ∧
     (build_task_relationships
        [{ id := "P", number := some 1 },
         { id := "C", number := some 2, parent := some 1 }]).parents =
      (tier12 [{ id := "P", number := some 1 },
               { id := "C", number := some 2, parent := some 1 }]).parents) :=
  ⟨Or.inl (by decide), c7_tier_gating _ (Or.inl (by decide))⟩

/-! ### C2 -/

/-- C2. Tier precedence: whenever an item `b` of the collection (with
unique ids) carries a declared parent reference that resolves to the id
`cid` of an item present in the collection, the final graph has
`parents[b] = cid` — regardless of anything any other item declared
about `b` (in particular a Tier 2 `sub_issues` declaration by some
other item A), and regardless of iteration order, since the Tier 1
assignment is unconditional while the Tier 2 assignment only fills
absent keys. -/
theorem c2_tier1_precedence (items : List Item) (b : Item) (cid : String)
    (hmem : b ∈ items) (hnd : (items.map Item.id).Nodup)
    (hres : resolveRef (number_to_id items) b.parent = some cid) :
    dget (build_task_relationships items).parents b.id = some cid := by
  obtain ⟨hps, _⟩ := tier12_tier1_edge items b cid hmem hnd hres
  obtain ⟨_, hp⟩ := build_graph_of_declared items (Or.inr (dget_ne_nil hps))
  rw [hp]
  exact hps

/-- Witness for C2 on the spec's own scenario: A declares B as a
sub-issue, B declares C as its parent, all three present; the resolved
parent of B is C, not A. -/
theorem c2_witness :
    dget (build_task_relationships
        [{ id := "A", number := some 1, sub_issues := [some 2] },
         { id := "B", number := some 2, parent := some 3 },
         { id := "C", number := some 3 }]).parents "B" = some "C" :=
  c2_tier1_precedence _
    { id := "B", number := some 2, parent := some 3 } "C"
    (by decide) (by decide) (by decide)

/-! ### C4: amended claim -/

/-- C4 amended: a declared parent reference that resolves to the item
itself is *not* ignored — the code adds the self-edge: with unique ids,
the result has `parents[b] = b` and `b ∈ children[b]`. -/
theorem c4_amended_self_edge (items : List Item) (b : Item)
    (hmem : b ∈ items) (hnd : (items.map Item.id).Nodup)
    (hres : resolveRef (number_to_id items) b.parent = some b.id) :
    dget (build_task_relationships items).parents b.id = some b.id ∧
      b.id ∈ dgetD (build_task_relationships items).children b.id [] := by
  obtain ⟨hps, hcs⟩ := tier12_tier1_edge items b b.id hmem hnd hres
  obtain ⟨hc, hp⟩ := build_graph_of_declared items (Or.inr (dget_ne_nil hps))
  rw [hp, hc]
  exact ⟨hps, hcs⟩

theorem c4_witness :
    dget (build_task_relationships
        [{ id := "X", number := some 5, parent := some 5 }]).parents "X" = some "X" ∧
      "X" ∈ dgetD (build_task_relationships
        [{ id := "X", number := some 5, parent := some 5 }]).children "X" [] :=
  c4_amended_self_edge _ { id := "X", number := some 5, parent := some 5 }
    (by decide) (by decide) (by decide)

/-! ### C8 -/

/-- C8. Dangling references are silently ignored: for an item `b`
whose declared parent reference carries a sequence number `n` that no
item of the collection maps to, processing `b` raises no error and
adds no edge (first conjunct, over an arbitrary state and index), and
in the single-item collection `[b]` (with `b` having no sub-issues)
the item ends up with no relationships and is classified an orphan
(second conjunct). -/
theorem c8_dangling_ignored (b : Item) (n : Nat)
    (hp : b.parent = some n) (hsub : b.sub_issues = []) :
    (∀ (numToId : List (Nat × String)) (st : Rel), dget numToId n = none →
        step12 numToId st b = st) ∧
      (dget (number_to_id [b]) n = none →
        build_task_relationships [b] =
          { children := [], parents := [], roots := [], orphans := [b.id] }) := by
  have hstep : ∀ (numToId : List (Nat × String)) (st : Rel), dget numToId n = none →
      step12 numToId st b = st := by
    intro numToId st hd
    have hres : resolveRef numToId b.parent = none := by
      rw [hp]; exact resolveRef_of_dget_none hd
    unfold step12 parentStep
    rw [hres, hsub]
    rfl
  refine ⟨hstep, fun hd => ?_⟩
  have h12 : tier12 [b] = ⟨[], [], [], []⟩ := by
    unfold tier12
    rw [List.foldl_cons, List.foldl_nil]
    exact hstep _ _ hd
  have h3 : tier3 ([b].filter isRequirement) ([b].filter isTestCase)
      ⟨[], [], [], []⟩ = ⟨[], [], [], []⟩ := by
    by_cases hr : isRequirement b
    · have ht : isTestCase b = false := by simp [isTestCase, hr]
      simp [hr, ht, tier3, tier3Step, related_tests]
    · simp [hr, tier3]
  have h4 : tier4 ([b].filter isTestCase) ⟨[], [], [], []⟩ = ⟨[], [], [], []⟩ := by
    by_cases ht : isTestCase b
    · simp only [List.filter_cons, ht, if_pos, List.filter_nil]
      unfold tier4
      simp only [List.isEmpty_nil, List.isEmpty_cons, Bool.not_false, Bool.and_true,
        if_true]
      unfold test_id_groups
      rw [List.foldl_cons, List.foldl_nil]
      unfold tgStep
      by_cases htid : testId b = ""
      · simp [htid]
      · simp [htid, tier4Step, dgetD, dget, dset]
    · simp [ht, tier4]
  have hc : classify [b] ⟨[], [], [], []⟩ =
      { children := [], parents := [], roots := [], orphans := [b.id] } := by
    unfold classify
    simp [dget]
  unfold build_task_relationships
  rw [h12]
  simp only [List.isEmpty_nil, Bool.and_self, if_true]
  rw [h3, h4, hc]

theorem c8_witness :
    (∀ (numToId : List (Nat × String)) (st : Rel), dget numToId 9 = none →
        step12 numToId st { id := "D", number := some 1, parent := some 9 } = st) ∧
      (dget (number_to_id [{ id := "D", number := some 1, parent := some 9 }]) 9 = none →
        build_task_relationships [{ id := "D", number := some 1, parent := some 9 }] =
          { children := [], parents := [], roots := [], orphans := ["D"] }) :=
  c8_dangling_ignored { id := "D", number := some 1, parent := some 9 } 9 rfl rfl

/-! ### C9 -/

/-- C9. Determinism and idempotence: `build_task_relationships` is a
pure function of the immutable input collection, so two runs on the
same collection produce identical `children`, `parents`, `roots` and
`orphans`, with the same ordering inside every list.  (The only
iteration over a Python `set` in the source is the one producing
`significant_terms`, whose result is used solely through
`len(...) >= 1`, so no output depends on set iteration order; every
other iteration is over lists or insertion-ordered dicts.) -/
theorem c9_deterministic_idempotent (items : List Item) :
    build_task_relationships items = build_task_relationships items := rfl

/-! ### `assignParents` lemmas -/

theorem assignParents_children (pid : String) (cs : List String) (st : Rel) :
    (assignParents pid cs st).children = st.children :=
  foldl_pred (fun (s : Rel) => s.children = st.children) _ _ _ rfl
    (fun _ _ _ hs => hs)

theorem assignParents_mem (pid : String) (cs : List String) (st : Rel) {c : String}
    (h : c ∈ cs ∨ dget st.parents c = some pid) :
    dget (assignParents pid cs st).parents c = some pid := by
  induction cs generalizing st with
  | nil =>
    rcases h with h | h
    · simp at h
    · exact h
  | cons a rest ih =>
    have he : assignParents pid (a :: rest) st
        = assignParents pid rest { st with parents := dset st.parents a pid } := rfl
    rw [he]
    apply ih
    rcases h with h | h
    · rcases List.mem_cons.mp h with h | h
      · subst h
        right
        show dget (dset st.parents c pid) c = some pid
        rw [dget_dset, if_pos rfl]
      · exact Or.inl h
    · right
      show dget (dset st.parents a pid) c = some pid
      rw [dget_dset]
      by_cases hc : c = a
      · rw [if_pos hc]
      · rw [if_neg hc]; exact h

theorem assignParents_not_mem (pid : String) (cs : List String) (st : Rel) {c : String}
    (h : c ∉ cs) :
    dget (assignParents pid cs st).parents c = dget st.parents c := by
  induction cs generalizing st with
  | nil => rfl
  | cons a rest ih =>
    have he : assignParents pid (a :: rest) st
        = assignParents pid rest { st with parents := dset st.parents a pid } := rfl
    rw [he, ih _ (fun hc => h (List.mem_cons_of_mem a hc))]
    show dget (dset st.parents a pid) c = dget st.parents c
    rw [dget_dset, if_neg (fun hc => h (by rw [hc]; exact List.mem_cons_self a rest))]

theorem assignParents_spec (pid : String) (cs : List String) (st : Rel) {c p : String}
    (h : dget (assignParents pid cs st).parents c = some p) :
    (c ∈ cs ∧ p = pid) ∨ dget st.parents c = some p := by
  induction cs generalizing st with
  | nil => exact Or.inr h
  | cons a rest ih =>
    have he : assignParents pid (a :: rest) st
        = assignParents pid rest { st with parents := dset st.parents a pid } := rfl
    rw [he] at h
    rcases ih _ h with ⟨hm, hp⟩ | h'
    · exact Or.inl ⟨List.mem_cons_of_mem a hm, hp⟩
    · by_cases hc : c = a
      · subst hc
        have hx : dget (dset st.parents c pid) c = some pid := by
          rw [dget_dset, if_pos rfl]
        have h'' : dget (dset st.parents c pid) c = some p := h'
        rw [hx] at h''
        exact Or.inl ⟨List.mem_cons_self c rest, (Option.some_inj.mp h'').symm⟩
      · right
        have h'' : dget (dset st.parents a pid) c = some p := h'
        rw [dget_dset, if_neg hc] at h''
        exact h''

/-! ### Tier 3 lemmas -/

theorem tier3Step_children_other {tests : List Item} {s : Rel} {req : Item} {k : String}
    (hk : req.id ≠ k) :
    dget (tier3Step tests s req).children k = dget s.children k := by
  unfold tier3Step
  by_cases hrel : (related_tests tests req).isEmpty = true
  · rw [if_pos hrel]
  · rw [if_neg hrel, assignParents_children]
    show dget (dset s.children req.id (related_tests tests req)) k = _
    rw [dget_dset, if_neg (fun h => hk h.symm)]

theorem tier3Step_children_spec {tests : List Item} {s : Rel} {req : Item} {p : String}
    {cs : List String} (h : dget (tier3Step tests s req).children p = some cs) :
    dget s.children p = some cs ∨
      (p = req.id ∧ cs = related_tests tests req ∧ related_tests tests req ≠ []) := by
  unfold tier3Step at h
  by_cases hrel : (related_tests tests req).isEmpty = true
  · rw [if_pos hrel] at h; exact Or.inl h
  · rw [if_neg hrel, assignParents_children] at h
    have h' : dget (dset s.children req.id (related_tests tests req)) p = some cs := h
    rw [dget_dset] at h'
    by_cases hp : p = req.id
    · rw [if_pos hp] at h'
      refine Or.inr ⟨hp, (Option.some_inj.mp h').symm, ?_⟩
      intro hnil
      exact hrel (List.isEmpty_iff.mpr hnil)
    · rw [if_neg hp] at h'
      exact Or.inl h'

theorem tier3Step_parents_spec {tests : List Item} {s : Rel} {req : Item} {c p : String}
    (h : dget (tier3Step tests s req).parents c = some p) :
    (c ∈ related_tests tests req ∧ p = req.id) ∨ dget s.parents c = some p := by
  unfold tier3Step at h
  by_cases hrel : (related_tests tests req).isEmpty = true
  · rw [if_pos hrel] at h; exact Or.inr h
  · rw [if_neg hrel] at h
    rcases assignParents_spec _ _ _ h with ⟨hm, hp⟩ | h'
    · exact Or.inl ⟨hm, hp⟩
    · exact Or.inr h'

theorem tier3Step_parents_stable {tests : List Item} {s : Rel} {req : Item} {c p : String}
    (hnm : c ∉ related_tests tests req) (h : dget s.parents c = some p) :
    dget (tier3Step tests s req).parents c = some p := by
  unfold tier3Step
  by_cases hrel : (related_tests tests req).isEmpty = true
  · rw [if_pos hrel]; exact h
  · rw [if_neg hrel, assignParents_not_mem _ _ _ hnm]
    exact h

theorem tier3Step_parents_mem {tests : List Item} {s : Rel} {req : Item} {c : String}
    (hm : c ∈ related_tests tests req) :
    dget (tier3Step tests s req).parents c = some req.id := by
  unfold tier3Step
  have hrel : ¬((related_tests tests req).isEmpty = true) := by
    intro h
    rw [List.isEmpty_iff.mp h] at hm
    simp at hm
  rw [if_neg hrel]
  exact assignParents_mem _ _ _ (Or.inl hm)

theorem tier3_children_stable {tests : List Item} (reqs : List Item) {st : Rel}
    {k : String} {v : List String} (hne : ∀ r ∈ reqs, r.id ≠ k)
    (h : dget st.children k = some v) :
    dget (tier3 reqs tests st).children k = some v :=
  foldl_pred (fun (s : Rel) => dget s.children k = some v) _ _ _ h
    (fun s a ha hs => by
      show dget (tier3Step tests s a).children k = some v
      rw [tier3Step_children_other (hne a ha)]
      exact hs)

theorem tier3_parents_stable {tests : List Item} (reqs : List Item) {st : Rel}
    {c p : String} (hnm : ∀ r ∈ reqs, c ∉ related_tests tests r)
    (h : dget st.parents c = some p) :
    dget (tier3 reqs tests st).parents c = some p :=
  foldl_pred (fun (s : Rel) => dget s.parents c = some p) _ _ _ h
    (fun _ a ha hs => tier3Step_parents_stable (hnm a ha) hs)

theorem tier3_children_spec {tests : List Item} (reqs : List Item) (st : Rel)
    {p : String} {cs : List String}
    (h : dget (tier3 reqs tests st).children p = some cs) :
    dget st.children p = some cs ∨
      ∃ r ∈ reqs, p = r.id ∧ cs = related_tests tests r ∧ related_tests tests r ≠ [] := by
  induction reqs generalizing st with
  | nil => exact Or.inl h
  | cons a rest ih =>
    have he : tier3 (a :: rest) tests st = tier3 rest tests (tier3Step tests st a) := rfl
    rw [he] at h
    rcases ih _ h with h' | ⟨r, hr, hp⟩
    · rcases tier3Step_children_spec h' with h'' | ⟨hp, hcs, hnn⟩
      · exact Or.inl h''
      · exact Or.inr ⟨a, List.mem_cons_self a rest, hp, hcs, hnn⟩
    · exact Or.inr ⟨r, List.mem_cons_of_mem a hr, hp⟩

theorem tier3_parents_spec {tests : List Item} (reqs : List Item) (st : Rel)
    {c p : String} (h : dget (tier3 reqs tests st).parents c = some p) :
    dget st.parents c = some p ∨
      ∃ r ∈ reqs, c ∈ related_tests tests r ∧ p = r.id := by
  induction reqs generalizing st with
  | nil => exact Or.inl h
  | cons a rest ih =>
    have he : tier3 (a :: rest) tests st = tier3 rest tests (tier3Step tests st a) := rfl
    rw [he] at h
    rcases ih _ h with h' | ⟨r, hr, hp⟩
    · rcases tier3Step_parents_spec h' with ⟨hm, hp⟩ | h''
      · exact Or.inr ⟨a, List.mem_cons_self a rest, hm, hp⟩
      · exact Or.inl h''
    · exact Or.inr ⟨r, List.mem_cons_of_mem a hr, hp⟩

theorem tier3_children_at {tests : List Item} (reqs : List Item) (st : Rel) (r : Item)
    (hmem : r ∈ reqs) (hnd : (reqs.map Item.id).Nodup)
    (hfresh : ∀ q ∈ reqs, dget st.children q.id = none)
    (hne : related_tests tests r ≠ []) :
    dget (tier3 reqs tests st).children r.id = some (related_tests tests r) := by
  induction reqs generalizing st with
  | nil => simp at hmem
  | cons a rest ih =>
    have he : tier3 (a :: rest) tests st = tier3 rest tests (tier3Step tests st a) := rfl
    rw [he]
    rw [List.map_cons, List.nodup_cons] at hnd
    rcases List.mem_cons.mp hmem with hr | hr
    · subst hr
      have h1 : dget (tier3Step tests st r).children r.id
          = some (related_tests tests r) := by
        unfold tier3Step
        rw [if_neg (fun hh => hne (List.isEmpty_iff.mp hh)), assignParents_children]
        show dget (dset st.children r.id (related_tests tests r)) r.id = _
        rw [dget_dset, if_pos rfl]
      exact tier3_children_stable rest
        (fun q hq hqe => hnd.1 (hqe ▸ List.mem_map.mpr ⟨q, hq, rfl⟩)) h1
    · refine ih _ hr hnd.2 ?_
      intro q hq
      rw [tier3Step_children_other
        (fun hh => hnd.1 (hh ▸ List.mem_map.mpr ⟨q, hq, rfl⟩))]
      exact hfresh q (List.mem_cons_of_mem a hq)

theorem mem_related_iff {tests : List Item} {t : Item} (q : Item)
    (hnd : (tests.map Item.id).Nodup) (htm : t ∈ tests) :
    t.id ∈ related_tests tests q ↔ titlesMatch q.title t.title = true := by
  constructor
  · intro h
    unfold related_tests at h
    rcases List.mem_map.mp h with ⟨u, hu, hid⟩
    rcases List.mem_filter.mp hu with ⟨hum, humatch⟩
    have hut : u = t := List.inj_on_of_nodup_map hnd hum htm hid
    rwa [hut] at humatch
  · intro h
    exact List.mem_map.mpr ⟨t, List.mem_filter.mpr ⟨htm, h⟩, rfl⟩

theorem tier3_parents_last {tests : List Item} (reqs : List Item) (st : Rel) (t r : Item)
    (htm : t ∈ tests) (hnd : (tests.map Item.id).Nodup)
    (hlast : (reqs.filter fun q => titlesMatch q.title t.title).getLast? = some r) :
    dget (tier3 reqs tests st).parents t.id = some r.id := by
  induction reqs generalizing st with
  | nil => simp at hlast
  | cons a rest ih =>
    have he : tier3 (a :: rest) tests st = tier3 rest tests (tier3Step tests st a) := rfl
    rw [he]
    by_cases hfr : (rest.filter fun q => titlesMatch q.title t.title) = []
    · rw [List.filter_cons, hfr] at hlast
      by_cases hm : titlesMatch a.title t.title = true
      · rw [if_pos hm] at hlast
        have hra : a = r := Option.some_inj.mp hlast
        subst hra
        have h1 : dget (tier3Step tests st a).parents t.id = some a.id :=
          tier3Step_parents_mem ((mem_related_iff a hnd htm).mpr hm)
        refine tier3_parents_stable rest ?_ h1
        intro q hq hmm
        have hq1 : titlesMatch q.title t.title = true := (mem_related_iff q hnd htm).mp hmm
        have hq2 : q ∈ rest.filter (fun q => titlesMatch q.title t.title) :=
          List.mem_filter.mpr ⟨hq, hq1⟩
        rw [hfr] at hq2
        simp at hq2
      · rw [if_neg hm] at hlast
        simp at hlast
    · have hlast' : (rest.filter fun q => titlesMatch q.title t.title).getLast? = some r := by
        rw [List.filter_cons] at hlast
        by_cases hm : titlesMatch a.title t.title = true
        · rw [if_pos hm] at hlast
          rwa [show a :: List.filter (fun q => titlesMatch q.title t.title) rest
                = [a] ++ List.filter (fun q => titlesMatch q.title t.title) rest from rfl,
              List.getLast?_append_of_ne_nil _ hfr] at hlast
        · rwa [if_neg hm] at hlast
      exact ih _ hlast'

theorem step12_id {numToId : List (Nat × String)} {st : Rel} (item : Item)
    (hp : item.parent = none) (hs : item.sub_issues = []) :
    step12 numToId st item = st := by
  unfold step12 parentStep
  rw [hp, hs]
  rfl

theorem tier12_empty (items : List Item)
    (h : ∀ it ∈ items, it.parent = none ∧ it.sub_issues = []) :
    tier12 items = ⟨[], [], [], []⟩ := by
  unfold tier12
  refine foldl_pred (fun (s : Rel) => s = ⟨[], [], [], []⟩) _ _ _ rfl ?_
  intro s a ha hs
  rw [step12_id a (h a ha).1 (h a ha).2, hs]

theorem tier4_skip {tests : List Item} {st : Rel} (h : st.children ≠ []) :
    tier4 tests st = st := by
  unfold tier4
  have he : st.children.isEmpty = false := by
    simp [List.isEmpty_iff, h]
  rw [he]
  rfl

/-! ### C10 -/

/-- C10. Tier 3 multi-match resolution: in a collection with distinct
ids and no declared links, a test-like item `t` whose title shares a
significant token with several requirement-like items ends up in the
children list of every matching requirement, while `parents[t]` is the
id of the *last* matching requirement in collection order (`r`, the
last element of the filtered requirement list), each later match
having overwritten the previous entry. -/
theorem c10_multi_match (items : List Item) (t r : Item)
    (hnd : (items.map Item.id).Nodup)
    (hnl : ∀ it ∈ items, it.parent = none ∧ it.sub_issues = [])
    (htest : t ∈ items.filter isTestCase)
    (hlast : ((items.filter isRequirement).filter
        fun q => titlesMatch q.title t.title).getLast? = some r) :
    (∀ q ∈ items.filter isRequirement, titlesMatch q.title t.title = true →
        t.id ∈ dgetD (build_task_relationships items).children q.id []) ∧
      dget (build_task_relationships items).parents t.id = some r.id := by
  have h12 := tier12_empty items hnl
  have hndT : (((items.filter isTestCase).map Item.id)).Nodup :=
    List.Nodup.sublist (List.Sublist.map Item.id (List.filter_sublist items)) hnd
  have hndR : (((items.filter isRequirement).map Item.id)).Nodup :=
    List.Nodup.sublist (List.Sublist.map Item.id (List.filter_sublist items)) hnd
  have hrmem : r ∈ items.filter isRequirement :=
    List.mem_of_mem_filter (List.mem_of_getLast?_eq_some hlast)
  have hrmatch : titlesMatch r.title t.title = true :=
    (List.mem_filter.mp (List.mem_of_getLast?_eq_some hlast)).2
  have hrel_r : t.id ∈ related_tests (items.filter isTestCase) r :=
    (mem_related_iff r hndT htest).mpr hrmatch
  have hrel_r_ne : related_tests (items.filter isTestCase) r ≠ [] := by
    intro hh; rw [hh] at hrel_r; simp at hrel_r
  have hchr : dget (tier3 (items.filter isRequirement) (items.filter isTestCase)
      ⟨[], [], [], []⟩).children r.id
        = some (related_tests (items.filter isTestCase) r) :=
    tier3_children_at _ _ r hrmem hndR (fun _ _ => rfl) hrel_r_ne
  have hpar : dget (tier3 (items.filter isRequirement) (items.filter isTestCase)
      ⟨[], [], [], []⟩).parents t.id = some r.id :=
    tier3_parents_last _ _ t r htest hndT hlast
  have hskip : tier4 (items.filter isTestCase)
      (tier3 (items.filter isRequirement) (items.filter isTestCase) ⟨[], [], [], []⟩)
        = tier3 (items.filter isRequirement) (items.filter isTestCase) ⟨[], [], [], []⟩ :=
    tier4_skip (dget_ne_nil hchr)
  have hb : build_task_relationships items
      = classify items (tier3 (items.filter isRequirement) (items.filter isTestCase)
          ⟨[], [], [], []⟩) := by
    unfold build_task_relationships
    rw [h12]
    simp only [List.isEmpty_nil, Bool.and_self, if_true]
    rw [hskip]
  obtain ⟨hc, hp⟩ := classify_graph items
    (tier3 (items.filter isRequirement) (items.filter isTestCase) ⟨[], [], [], []⟩)
  rw [hb, hc, hp]
  constructor
  · intro q hq hm
    have hq_rel : t.id ∈ related_tests (items.filter isTestCase) q :=
      (mem_related_iff q hndT htest).mpr hm
    have hq_ne : related_tests (items.filter isTestCase) q ≠ [] := by
      intro hh; rw [hh] at hq_rel; simp at hq_rel
    have := tier3_children_at _ ⟨[], [], [], []⟩ q hq hndR (fun _ _ => rfl) hq_ne
    rw [dgetD, this, Option.getD_some]
    exact hq_rel
  · exact hpar

/-- Witness for C10: the test "alpha test" matches the two
requirements "alpha requirement one" and "alpha requirement two" on
the shared token "alpha"; it appears under both, and its parent is the
second (last) requirement. -/
theorem c10_witness :
    (∀ q ∈ [{ id := "R1", title := "alpha requirement one",
              project_fields := [("Acceptance", "y")] },
            { id := "R2", title := "alpha requirement two",
              project_fields := [("Acceptance", "y")] },
            { id := "T", title := "alpha test",
              project_fields := [("Test type", "Unit")] }].filter isRequirement,
        titlesMatch q.title "alpha test" = true →
          "T" ∈ dgetD (build_task_relationships
            [{ id := "R1", title := "alpha requirement one",
               project_fields := [("Acceptance", "y")] },
             { id := "R2", title := "alpha requirement two",
               project_fields := [("Acceptance", "y")] },
             { id := "T", title := "alpha test",
               project_fields := [("Test type", "Unit")] }]).children q.id []) ∧
      dget (build_task_relationships
        [{ id := "R1", title := "alpha requirement one",
           project_fields := [("Acceptance", "y")] },
         { id := "R2", title := "alpha requirement two",
           project_fields := [("Acceptance", "y")] },
         { id := "T", title := "alpha test",
           project_fields := [("Test type", "Unit")] }]).parents "T" =
        some "R2" :=
  c10_multi_match _
    { id := "T", title := "alpha test", project_fields := [("Test type", "Unit")] }
    { id := "R2", title := "alpha requirement two",
      project_fields := [("Acceptance", "y")] }
    (by decide) (by decide) (by decide) (by decide)

/-! ### C6: amended claim -/

/-- C6 amended: Tier 4 groups only *test-like* items. For a two-item
collection of test-like items (carrying the test-classification marker
`Test type` and no `Acceptance` marker) that share the same nonempty
`Test ID` and have no declared links, the first item in collection
order becomes the synthetic parent of the second. -/
theorem c6_amended_grouping (a b : Item)
    (hpa : a.parent = none) (hsa : a.sub_issues = [])
    (hpb : b.parent = none) (hsb : b.sub_issues = [])
    (hta : isTestCase a = true) (htb : isTestCase b = true)
    (htid : testId b = testId a) (hne : testId a ≠ "") :
    dget (build_task_relationships [a, b]).children a.id = some [b.id] ∧
      dget (build_task_relationships [a, b]).parents b.id = some a.id := by
  have h12 : tier12 [a, b] = ⟨[], [], [], []⟩ := by
    refine tier12_empty _ ?_
    intro it hit
    rcases List.mem_cons.mp hit with rfl | hit
    · exact ⟨hpa, hsa⟩
    · rcases List.mem_cons.mp hit with rfl | hit
      · exact ⟨hpb, hsb⟩
      · simp at hit
  have hra : isRequirement a = false := by
    revert hta
    unfold isTestCase
    cases isRequirement a <;> simp
  have hrb : isRequirement b = false := by
    revert htb
    unfold isTestCase
    cases isRequirement b <;> simp
  have hreqs : [a, b].filter isRequirement = [] := by
    simp [List.filter_cons, hra, hrb]
  have htests : [a, b].filter isTestCase = [a, b] := by
    simp [List.filter_cons, hta, htb]
  have hgroups : test_id_groups [a, b] = [(testId a, [a, b])] := by
    unfold test_id_groups
    rw [List.foldl_cons, List.foldl_cons, List.foldl_nil]
    unfold tgStep
    dsimp only
    rw [htid, if_neg hne]
    simp [hne, dgetD, dget, dset]
  have h4 : tier4 [a, b] ⟨[], [], [], []⟩ =
      { children := [(a.id, [b.id])], parents := [(b.id, a.id)],
        roots := [], orphans := [] } := by
    unfold tier4
    simp only [List.isEmpty_nil, List.isEmpty_cons, Bool.not_false, Bool.and_true,
      if_true]
    rw [hgroups, List.foldl_cons, List.foldl_nil]
    unfold tier4Step
    simp [assignParents, dset, dget, dgetD]
  unfold build_task_relationships
  rw [h12]
  simp only [List.isEmpty_nil, Bool.and_self, if_true]
  rw [hreqs, htests]
  have h3 : tier3 [] [a, b] ⟨[], [], [], []⟩ = ⟨[], [], [], []⟩ := rfl
  rw [h3, h4]
  obtain ⟨hc, hp⟩ := classify_graph [a, b]
    { children := [(a.id, [b.id])], parents := [(b.id, a.id)],
      roots := [], orphans := [] }
  rw [hc, hp]
  constructor
  · simp [dget]
  · simp [dget]

theorem c6_witness :
    dget (build_task_relationships
        [{ id := "1", project_fields := [("Test type", "Unit"), ("Test ID", "TID-7")] },
         { id := "2", project_fields := [("Test type", "Unit"), ("Test ID", "TID-7")] }]).children
      "1" = some ["2"] ∧
      dget (build_task_relationships
        [{ id := "1", project_fields := [("Test type", "Unit"), ("Test ID", "TID-7")] },
         { id := "2", project_fields := [("Test type", "Unit"), ("Test ID", "TID-7")] }]).parents
      "2" = some "1" :=
  c6_amended_grouping
    { id := "1", project_fields := [("Test type", "Unit"), ("Test ID", "TID-7")] }
    { id := "2", project_fields := [("Test type", "Unit"), ("Test ID", "TID-7")] }
    rfl rfl rfl rfl (by decide) (by decide) (by decide) (by decide)

/-! ### `test_id_groups` characterization -/

theorem not_mem_keys_of_dget_none {κ α : Type} [DecidableEq κ] {d : List (κ × α)} {k : κ}
    (h : dget d k = none) : k ∉ d.map Prod.fst := by
  induction d with
  | nil => simp
  | cons hd tl ih =>
    obtain ⟨k₀, v₀⟩ := hd
    by_cases h0 : k₀ = k
    · subst h0; simp [dget] at h
    · simp [dget, h0] at h
      simp [ih h]
      exact fun he => h0 he.symm

theorem tgStep_dgetD (gs : List (String × List Item)) (t : Item) (k : String)
    (hk : k ≠ "") :
    dgetD (tgStep gs t) k [] =
      dgetD gs k [] ++ (if testId t = k then [t] else []) := by
  unfold tgStep
  by_cases ht : testId t = ""
  · rw [if_pos ht, if_neg (fun hh => hk (hh.symm.trans ht))]
    simp
  · rw [if_neg ht]
    by_cases htk : testId t = k
    · subst htk
      unfold dgetD
      rw [dget_dset, if_pos rfl, Option.getD_some, if_pos rfl]
    · unfold dgetD
      rw [dget_dset, if_neg (fun hh => htk hh.symm), if_neg htk]
      simp

theorem test_id_groups_fold_dgetD (ts : List Item) (gs : List (String × List Item))
    (k : String) (hk : k ≠ "") :
    dgetD (ts.foldl tgStep gs) k [] =
      dgetD gs k [] ++ ts.filter (fun t => testId t = k) := by
  induction ts generalizing gs with
  | nil => simp
  | cons t rest ih =>
    rw [List.foldl_cons, ih, tgStep_dgetD gs t k hk, List.filter_cons]
    by_cases htk : testId t = k
    · simp [htk]
    · simp [htk]

theorem test_id_groups_keys (ts : List Item) :
    ((test_id_groups ts).map Prod.fst).Nodup ∧
      ∀ kg ∈ test_id_groups ts, kg.1 ≠ "" := by
  unfold test_id_groups
  refine foldl_pred
    (fun (gs : List (String × List Item)) =>
      (gs.map Prod.fst).Nodup ∧ ∀ kg ∈ gs, kg.1 ≠ "") _ _ _ (by simp) ?_
  intro gs t _ hinv
  obtain ⟨hnd, hval⟩ := hinv
  unfold tgStep
  by_cases ht : testId t = ""
  · rw [if_pos ht]; exact ⟨hnd, hval⟩
  · rw [if_neg ht]
    by_cases hex : (dget gs (testId t)).isSome
    · refine ⟨by rw [dset_keys_mem hex]; exact hnd, ?_⟩
      intro kg hkg
      obtain ⟨k', v'⟩ := kg
      rcases mem_dset hkg with ⟨h1, _⟩ | ⟨h1, _⟩ | h1
      · simpa [h1] using ht
      · exact hval _ h1
      · exact hval _ h1
    · have hnone : dget gs (testId t) = none := by
        cases hg : dget gs (testId t)
        · rfl
        · rw [hg] at hex; simp at hex
      refine ⟨?_, ?_⟩
      · rw [dset_keys_new hnone]
        simp only [List.nodup_append, List.nodup_cons, List.nodup_nil]
        refine ⟨hnd, ⟨by simp, by simp⟩, ?_⟩
        intro a ha hb
        simp only [List.mem_singleton] at hb
        subst hb
        exact not_mem_keys_of_dget_none hnone ha
      · intro kg hkg
        obtain ⟨k', v'⟩ := kg
        rcases mem_dset hkg with ⟨h1, _⟩ | ⟨h1, _⟩ | h1
        · simpa [h1] using ht
        · exact hval _ h1
        · exact hval _ h1

theorem test_id_groups_entry {tests : List Item} {k : String} {g : List Item}
    (h : (k, g) ∈ test_id_groups tests) :
    k ≠ "" ∧ g = tests.filter (fun t => testId t = k) := by
  obtain ⟨hnd, hval⟩ := test_id_groups_keys tests
  have hk : k ≠ "" := hval (k, g) h
  have hget : dget (test_id_groups tests) k = some g := mem_dget_of_nodup_keys hnd h
  have hdg := test_id_groups_fold_dgetD tests [] k hk
  unfold test_id_groups at hget
  rw [dgetD, hget, Option.getD_some] at hdg
  refine ⟨hk, ?_⟩
  simpa [dgetD, dget] using hdg

/-! ### Tier 4 structure lemmas -/

theorem tier4Step_children_spec {s : Rel} {kg : String × List Item} {p : String}
    {cs : List String} (h : dget (tier4Step s kg).children p = some cs) :
    dget s.children p = some cs ∨
      ∃ hd rest, kg.2 = hd :: rest ∧ rest ≠ [] ∧ p = hd.id ∧ cs = rest.map Item.id := by
  obtain ⟨k, g⟩ := kg
  cases g with
  | nil => exact Or.inl h
  | cons hd rest =>
    unfold tier4Step at h
    dsimp only at h
    by_cases hre : rest.isEmpty = true
    · rw [if_pos hre] at h; exact Or.inl h
    · rw [if_neg hre] at h
      by_cases hci : (rest.map Item.id).isEmpty = true
      · rw [if_pos hci] at h; exact Or.inl h
      · rw [if_neg hci, assignParents_children] at h
        have h' : dget (dset s.children hd.id (rest.map Item.id)) p = some cs := h
        rw [dget_dset] at h'
        by_cases hp : p = hd.id
        · rw [if_pos hp] at h'
          exact Or.inr ⟨hd, rest, rfl, fun hh => hre (List.isEmpty_iff.mpr hh), hp,
            (Option.some_inj.mp h').symm⟩
        · rw [if_neg hp] at h'; exact Or.inl h'

theorem tier4Step_parents_spec {s : Rel} {kg : String × List Item} {c p : String}
    (h : dget (tier4Step s kg).parents c = some p) :
    dget s.parents c = some p ∨
      ∃ hd rest, kg.2 = hd :: rest ∧ rest ≠ [] ∧ c ∈ rest.map Item.id ∧ p = hd.id := by
  obtain ⟨k, g⟩ := kg
  cases g with
  | nil => exact Or.inl h
  | cons hd rest =>
    unfold tier4Step at h
    dsimp only at h
    by_cases hre : rest.isEmpty = true
    · rw [if_pos hre] at h; exact Or.inl h
    · rw [if_neg hre] at h
      by_cases hci : (rest.map Item.id).isEmpty = true
      · rw [if_pos hci] at h; exact Or.inl h
      · rw [if_neg hci] at h
        rcases assignParents_spec _ _ _ h with ⟨hm, hp⟩ | h'
        · exact Or.inr ⟨hd, rest, rfl, fun hh => hre (List.isEmpty_iff.mpr hh), hm, hp⟩
        · exact Or.inl h'

theorem tier4_fold_children_spec (groups : List (String × List Item)) (st : Rel)
    {p : String} {cs : List String}
    (h : dget (groups.foldl tier4Step st).children p = some cs) :
    dget st.children p = some cs ∨
      ∃ kg ∈ groups, ∃ hd rest,
        kg.2 = hd :: rest ∧ rest ≠ [] ∧ p = hd.id ∧ cs = rest.map Item.id := by
  induction groups generalizing st with
  | nil => exact Or.inl h
  | cons kg gs ih =>
    rw [List.foldl_cons] at h
    rcases ih _ h with h' | ⟨kg', hkg', hrest⟩
    · rcases tier4Step_children_spec h' with h'' | ⟨hd, rest, hs⟩
      · exact Or.inl h''
      · exact Or.inr ⟨kg, List.mem_cons_self kg gs, hd, rest, hs⟩
    · exact Or.inr ⟨kg', List.mem_cons_of_mem kg hkg', hrest⟩

theorem tier4_fold_parents_spec (groups : List (String × List Item)) (st : Rel)
    {c p : String}
    (h : dget (groups.foldl tier4Step st).parents c = some p) :
    dget st.parents c = some p ∨
      ∃ kg ∈ groups, ∃ hd rest,
        kg.2 = hd :: rest ∧ rest ≠ [] ∧ c ∈ rest.map Item.id ∧ p = hd.id := by
  induction groups generalizing st with
  | nil => exact Or.inl h
  | cons kg gs ih =>
    rw [List.foldl_cons] at h
    rcases ih _ h with h' | ⟨kg', hkg', hrest⟩
    · rcases tier4Step_parents_spec h' with h'' | ⟨hd, rest, hs⟩
      · exact Or.inl h''
      · exact Or.inr ⟨kg, List.mem_cons_self kg gs, hd, rest, hs⟩
    · exact Or.inr ⟨kg', List.mem_cons_of_mem kg hkg', hrest⟩

theorem tier4_cases (tests : List Item) (st : Rel) :
    tier4 tests st = st ∨
      (st.children = [] ∧
        tier4 tests st = (test_id_groups tests).foldl tier4Step st) := by
  unfold tier4
  by_cases hg : (st.children.isEmpty && !tests.isEmpty) = true
  · refine Or.inr ⟨?_, by rw [if_pos hg]⟩
    have := (Bool.and_eq_true _ _).mp hg
    exact List.isEmpty_iff.mp this.1
  · exact Or.inl (by rw [if_neg hg])

/-! ### Acyclicity of the inference tiers -/

theorem hasEdge_elim {g : Rel} {p c : String} (h : hasEdge g p c) :
    ∃ cs, dget g.children p = some cs ∧ c ∈ cs := by
  unfold hasEdge dgetD at h
  cases hg : dget g.children p with
  | none => rw [hg] at h; simp at h
  | some cs => rw [hg] at h; exact ⟨cs, rfl, h⟩

/-- If every edge of `g` goes from a parent to a node that is itself
neither the parent nor a key of `children`, then no node is its own
ancestor. -/
theorem no_self_ancestor_of_closed (g : Rel)
    (hcl : ∀ p c, hasEdge g p c → p ≠ c ∧ dget g.children c = none) (x : String) :
    ¬ isAncestor g x x := by
  intro hx
  obtain ⟨b, h1, h2⟩ := (Relation.TransGen.head'_iff).mp hx
  obtain ⟨hne, hnone⟩ := hcl x b h1
  rcases Relation.ReflTransGen.cases_head h2 with hbx | ⟨c, h3, _⟩
  · exact hne hbx.symm
  · obtain ⟨cs, hcs, _⟩ := hasEdge_elim h3
    rw [hnone] at hcs
    cases hcs

theorem isRequirement_false_of_isTestCase {it : Item} (h : isTestCase it = true) :
    isRequirement it = false := by
  revert h
  unfold isTestCase
  cases isRequirement it <;> simp

/-- Global shape of the inference-tier state (Tiers 3-4 run from the
empty state): either every `children` entry is a Tier 3 entry (a
requirement id mapping to its related tests), or every entry is a
Tier 4 entry (a `Test ID` group head mapping to the group tail) -- the
Tier 4 guard prevents the two kinds from coexisting. -/
theorem inference_split (items : List Item) :
    (∀ p cs, dget (tier4 (items.filter isTestCase)
        (tier3 (items.filter isRequirement) (items.filter isTestCase)
          ⟨[], [], [], []⟩)).children p = some cs →
        ∃ r ∈ items.filter isRequirement, p = r.id ∧
          cs = related_tests (items.filter isTestCase) r) ∨
      (∀ p cs, dget (tier4 (items.filter isTestCase)
        (tier3 (items.filter isRequirement) (items.filter isTestCase)
          ⟨[], [], [], []⟩)).children p = some cs →
        ∃ k hd rest, (k, hd :: rest) ∈ test_id_groups (items.filter isTestCase) ∧
          rest ≠ [] ∧ p = hd.id ∧ cs = rest.map Item.id) := by
  rcases tier4_cases (items.filter isTestCase)
      (tier3 (items.filter isRequirement) (items.filter isTestCase) ⟨[], [], [], []⟩)
    with h4 | ⟨hc3, h4⟩
  · left
    intro p cs h
    rw [h4] at h
    rcases tier3_children_spec _ _ h with h' | ⟨r, hr, hp, hcs, _⟩
    · simp [dget] at h'
    · exact ⟨r, hr, hp, hcs⟩
  · right
    intro p cs h
    rw [h4] at h
    rcases tier4_fold_children_spec _ _ h with h' | ⟨kg, hkg, hd, rest, hg, hrest, hp, hcs⟩
    · rw [hc3] at h'
      simp [dget] at h'
    · refine ⟨kg.1, hd, rest, ?_, hrest, hp, hcs⟩
      rw [← hg, Prod.mk.eta]
      exact hkg

/-- C1 amended: `build_task_relationships` performs no ancestor check,
so declared links can create cycles (see the counterexample); however,
for a collection with distinct ids in which no item carries a declared
parent or sub-issue link -- so that only the inference Tiers 3-4
contribute edges -- the produced graph has no id that is its own
ancestor. -/
theorem c1_amended_acyclic (items : List Item) (x : String)
    (hnd : (items.map Item.id).Nodup)
    (hnl : ∀ it ∈ items, it.parent = none ∧ it.sub_issues = []) :
    ¬ isAncestor (build_task_relationships items) x x := by
  have h12 := tier12_empty items hnl
  have hb : build_task_relationships items
      = classify items (tier4 (items.filter isTestCase)
          (tier3 (items.filter isRequirement) (items.filter isTestCase)
            ⟨[], [], [], []⟩)) := by
    unfold build_task_relationships
    rw [h12]
    simp only [List.isEmpty_nil, Bool.and_self, if_true]
  obtain ⟨hc, _⟩ := classify_graph items
    (tier4 (items.filter isTestCase)
      (tier3 (items.filter isRequirement) (items.filter isTestCase) ⟨[], [], [], []⟩))
  apply no_self_ancestor_of_closed
  intro p c hedge
  obtain ⟨cs, hcs, hmem⟩ := hasEdge_elim hedge
  rw [hb, hc] at hcs
  rcases inference_split items with hsplit | hsplit
  · obtain ⟨r, hrR, hp, hcseq⟩ := hsplit p cs hcs
    rw [hcseq] at hmem
    obtain ⟨u, hu, huc⟩ := List.mem_map.mp hmem
    obtain ⟨huT, _⟩ := List.mem_filter.mp hu
    have hreq : isRequirement r = true := (List.mem_filter.mp hrR).2
    have htc : isTestCase u = true := (List.mem_filter.mp huT).2
    have hmr : r ∈ items := List.mem_of_mem_filter hrR
    have hmu : u ∈ items := List.mem_of_mem_filter huT
    have hur : u ≠ r := by
      intro he
      have h1 := isRequirement_false_of_isTestCase (he ▸ htc)
      rw [h1] at hreq
      cases hreq
    constructor
    · intro hpc
      exact hur (List.inj_on_of_nodup_map hnd hmu hmr
        (huc.trans (hp.symm.trans hpc).symm))
    · cases hcn : dget (tier4 (items.filter isTestCase)
          (tier3 (items.filter isRequirement) (items.filter isTestCase)
            ⟨[], [], [], []⟩)).children c with
      | none => rw [hb, hc]; exact hcn
      | some cs2 =>
        exfalso
        obtain ⟨r2, hr2R, hp2, _⟩ := hsplit c cs2 hcn
        have hue : u = r2 := List.inj_on_of_nodup_map hnd hmu
          (List.mem_of_mem_filter hr2R) (huc.trans hp2)
        have hreq2 : isRequirement r2 = true := (List.mem_filter.mp hr2R).2
        rw [← hue, isRequirement_false_of_isTestCase htc] at hreq2
        cases hreq2
  · obtain ⟨k, hd, rest, hkg, hrest, hp, hcseq⟩ := hsplit p cs hcs
    obtain ⟨hk, hgf⟩ := test_id_groups_entry hkg
    rw [hcseq] at hmem
    obtain ⟨y, hy, hyc⟩ := List.mem_map.mp hmem
    have hsubl : List.Sublist ((hd :: rest).map Item.id) (items.map Item.id) := by
      rw [hgf]
      exact List.Sublist.map _
        (List.Sublist.trans (List.filter_sublist _) (List.filter_sublist _))
    have hndg := List.Nodup.sublist hsubl hnd
    rw [List.map_cons, List.nodup_cons] at hndg
    constructor
    · intro hpc
      exact hndg.1 (List.mem_map.mpr ⟨y, hy, hyc.trans (hp.symm.trans hpc).symm⟩)
    · cases hcn : dget (tier4 (items.filter isTestCase)
          (tier3 (items.filter isRequirement) (items.filter isTestCase)
            ⟨[], [], [], []⟩)).children c with
      | none => rw [hb, hc]; exact hcn
      | some cs2 =>
        exfalso
        obtain ⟨k2, hd2, rest2, hkg2, hrest2, hp2, _⟩ := hsplit c cs2 hcn
        obtain ⟨hk2, hgf2⟩ := test_id_groups_entry hkg2
        by_cases hkk : k = k2
        · subst hkk
          have hnd_keys := (test_id_groups_keys (items.filter isTestCase)).1
          have e1 := mem_dget_of_nodup_keys hnd_keys hkg
          have e2 := mem_dget_of_nodup_keys hnd_keys hkg2
          rw [e1] at e2
          have he := Option.some_inj.mp e2
          injection he with hhd hrst
          have hyid : y.id = hd.id := by rw [hyc, hp2, ← hhd]
          exact hndg.1 (List.mem_map.mpr ⟨y, hy, hyid⟩)
        · have hyT : y ∈ items.filter isTestCase := by
            have hym : y ∈ hd :: rest := List.mem_cons_of_mem hd hy
            rw [hgf] at hym
            exact List.mem_of_mem_filter hym
          have hyk : testId y = k := by
            have hym : y ∈ hd :: rest := List.mem_cons_of_mem hd hy
            rw [hgf] at hym
            exact of_decide_eq_true (List.mem_filter.mp hym).2
          have hhd2T : hd2 ∈ items.filter isTestCase := by
            have hm2 : hd2 ∈ hd2 :: rest2 := List.mem_cons_self hd2 rest2
            rw [hgf2] at hm2
            exact List.mem_of_mem_filter hm2
          have hhd2k : testId hd2 = k2 := by
            have hm2 : hd2 ∈ hd2 :: rest2 := List.mem_cons_self hd2 rest2
            rw [hgf2] at hm2
            exact of_decide_eq_true (List.mem_filter.mp hm2).2
          have hyhd : y = hd2 := List.inj_on_of_nodup_map hnd
            (List.mem_of_mem_filter hyT) (List.mem_of_mem_filter hhd2T)
            (hyc.trans hp2)
          exact hkk (hyk.symm.trans (by rw [hyhd, hhd2k]))

/-- Witness for the amended C1 on a collection where the inference
tiers do produce edges (the Tier 4 grouping pair). -/
theorem c1_witness :
    ¬ isAncestor (build_task_relationships
        [{ id := "1", project_fields := [("Test type", "Unit"), ("Test ID", "TID-7")] },
         { id := "2", project_fields := [("Test type", "Unit"), ("Test ID", "TID-7")] }])
      "1" "1" :=
  c1_amended_acyclic _ "1" (by decide) (by decide)

/-! ### The parents-into-children invariant -/

theorem parentStep_none {numToId : List (Nat × String)} {st : Rel} {item : Item}
    (hr : resolveRef numToId item.parent = none) :
    parentStep numToId st item = st := by
  unfold parentStep
  rw [hr]

theorem parentStep_some {numToId : List (Nat × String)} {st : Rel} {item : Item}
    {pid : String} (hr : resolveRef numToId item.parent = some pid) :
    parentStep numToId st item =
      { addChild st pid item.id with
        parents := dset (addChild st pid item.id).parents item.id pid } := by
  unfold parentStep
  rw [hr]

theorem parentStep_inv {numToId : List (Nat × String)} {st : Rel} (item : Item)
    (hinv : ∀ c p, dget st.parents c = some p → c ∈ dgetD st.children p []) :
    ∀ c p, dget (parentStep numToId st item).parents c = some p →
      c ∈ dgetD (parentStep numToId st item).children p [] := by
  intro c p h
  cases hr : resolveRef numToId item.parent with
  | none =>
    rw [parentStep_none hr] at h ⊢
    exact hinv c p h
  | some pid =>
    rw [parentStep_some hr] at h ⊢
    have h' : dget (dset (addChild st pid item.id).parents item.id pid) c = some p := h
    rw [dget_dset, addChild_parents] at h'
    by_cases hc : c = item.id
    · rw [if_pos hc] at h'
      have hpp : p = pid := (Option.some_inj.mp h').symm
      rw [hc, hpp]
      exact addChild_mem st pid item.id
    · rw [if_neg hc] at h'
      exact addChild_mono pid item.id (hinv c p h')

theorem subStep_inv {numToId : List (Nat × String)} {itemId : String} {s : Rel}
    {sub : Option Nat}
    (hinv : ∀ c p, dget s.parents c = some p → c ∈ dgetD s.children p []) :
    ∀ c p, dget (subStep numToId itemId s sub).parents c = some p →
      c ∈ dgetD (subStep numToId itemId s sub).children p [] := by
  intro c p h
  cases hr : resolveRef numToId sub with
  | none =>
    rw [subStep_none itemId s hr] at h ⊢
    exact hinv c p h
  | some sid =>
    rw [subStep_some itemId s hr] at h ⊢
    by_cases hs : (dget (addChild s itemId sid).parents sid).isSome
    · rw [if_pos hs] at h ⊢
      have h' : dget s.parents c = some p := by rwa [addChild_parents] at h
      exact addChild_mono itemId sid (hinv c p h')
    · rw [if_neg hs] at h ⊢
      have h' : dget (dset (addChild s itemId sid).parents sid itemId) c = some p := h
      rw [dget_dset, addChild_parents] at h'
      by_cases hc : c = sid
      · rw [if_pos hc] at h'
        have hpp : p = itemId := (Option.some_inj.mp h').symm
        rw [hc, hpp]
        exact addChild_mem s itemId sid
      · rw [if_neg hc] at h'
        exact addChild_mono itemId sid (hinv c p h')

theorem step12_inv {numToId : List (Nat × String)} {st : Rel} (item : Item)
    (hinv : ∀ c p, dget st.parents c = some p → c ∈ dgetD st.children p []) :
    ∀ c p, dget (step12 numToId st item).parents c = some p →
      c ∈ dgetD (step12 numToId st item).children p [] := by
  unfold step12
  by_cases he : item.sub_issues.isEmpty
  · simp only [he, if_true]
    exact parentStep_inv item hinv
  · simp only [he, Bool.false_eq_true, if_false]
    exact foldl_pred
      (fun (s : Rel) => ∀ c p, dget s.parents c = some p → c ∈ dgetD s.children p [])
      _ _ _ (parentStep_inv item hinv)
      (fun _ _ _ hs => subStep_inv hs)

theorem tier12_inv (items : List Item) :
    ∀ c p, dget (tier12 items).parents c = some p →
      c ∈ dgetD (tier12 items).children p [] :=
  foldl_pred
    (fun (s : Rel) => ∀ c p, dget s.parents c = some p → c ∈ dgetD s.children p [])
    _ _ _ (by intro c p h; simp [dget] at h)
    (fun _ a _ hs => step12_inv a hs)

theorem tier3Step_inv {tests : List Item} {st : Rel} (a : Item)
    (hinv : ∀ c p, dget st.parents c = some p → c ∈ dgetD st.children p [])
    (hfa : dget st.children a.id = none) :
    ∀ c p, dget (tier3Step tests st a).parents c = some p →
      c ∈ dgetD (tier3Step tests st a).children p [] := by
  intro c p h
  unfold tier3Step at h ⊢
  by_cases hrel : (related_tests tests a).isEmpty = true
  · rw [if_pos hrel] at h ⊢
    exact hinv c p h
  · rw [if_neg hrel] at h ⊢
    rcases assignParents_spec _ _ _ h with ⟨hm, rfl⟩ | h'
    · rw [assignParents_children]
      show c ∈ dgetD (dset st.children a.id (related_tests tests a)) a.id []
      unfold dgetD
      rw [dget_dset, if_pos rfl, Option.getD_some]
      exact hm
    · have h'' : dget st.parents c = some p := h'
      have hcm := hinv c p h''
      rw [assignParents_children]
      show c ∈ dgetD (dset st.children a.id (related_tests tests a)) p []
      unfold dgetD
      rw [dget_dset]
      by_cases hpa : p = a.id
      · exfalso
        unfold dgetD at hcm
        rw [hpa, hfa] at hcm
        simp at hcm
      · rw [if_neg hpa]
        exact hcm

theorem tier3_inv (reqs tests : List Item) (st : Rel)
    (hinv : ∀ c p, dget st.parents c = some p → c ∈ dgetD st.children p [])
    (hfresh : ∀ r ∈ reqs, dget st.children r.id = none)
    (hnd : (reqs.map Item.id).Nodup) :
    ∀ c p, dget (tier3 reqs tests st).parents c = some p →
      c ∈ dgetD (tier3 reqs tests st).children p [] := by
  induction reqs generalizing st with
  | nil => exact hinv
  | cons a rest ih =>
    have he : tier3 (a :: rest) tests st = tier3 rest tests (tier3Step tests st a) := rfl
    rw [he]
    rw [List.map_cons, List.nodup_cons] at hnd
    refine ih _ (tier3Step_inv a hinv (hfresh a (List.mem_cons_self a rest))) ?_ hnd.2
    intro q hq
    rw [tier3Step_children_other
      (fun hh => hnd.1 (hh ▸ List.mem_map.mpr ⟨q, hq, rfl⟩))]
    exact hfresh q (List.mem_cons_of_mem a hq)

theorem tier4Step_children_other {st : Rel} {kg : String × List Item} {k2 : String}
    (hk : ∀ hd rest, kg.2 = hd :: rest → hd.id ≠ k2) :
    dget (tier4Step st kg).children k2 = dget st.children k2 := by
  obtain ⟨k, g⟩ := kg
  cases g with
  | nil => rfl
  | cons hd rest =>
    unfold tier4Step
    dsimp only
    by_cases hre : rest.isEmpty = true
    · rw [if_pos hre]
    · rw [if_neg hre]
      by_cases hci : (rest.map Item.id).isEmpty = true
      · rw [if_pos hci]
      · rw [if_neg hci, assignParents_children]
        show dget (dset st.children hd.id (rest.map Item.id)) k2 = _
        rw [dget_dset, if_neg (fun hh => hk hd rest rfl hh.symm)]

theorem tier4Step_inv {st : Rel} {kg : String × List Item}
    (hinv : ∀ c p, dget st.parents c = some p → c ∈ dgetD st.children p [])
    (hf : ∀ hd rest, kg.2 = hd :: rest → dget st.children hd.id = none) :
    ∀ c p, dget (tier4Step st kg).parents c = some p →
      c ∈ dgetD (tier4Step st kg).children p [] := by
  obtain ⟨k, g⟩ := kg
  cases g with
  | nil => exact hinv
  | cons hd rest =>
    intro c p h
    unfold tier4Step at h ⊢
    dsimp only at h ⊢
    by_cases hre : rest.isEmpty = true
    · rw [if_pos hre] at h ⊢
      exact hinv c p h
    · rw [if_neg hre] at h ⊢
      by_cases hci : (rest.map Item.id).isEmpty = true
      · rw [if_pos hci] at h ⊢
        exact hinv c p h
      · rw [if_neg hci] at h ⊢
        rcases assignParents_spec _ _ _ h with ⟨hm, rfl⟩ | h'
        · rw [assignParents_children]
          show c ∈ dgetD (dset st.children hd.id (rest.map Item.id)) hd.id []
          unfold dgetD
          rw [dget_dset, if_pos rfl, Option.getD_some]
          exact hm
        · have h'' : dget st.parents c = some p := h'
          have hcm := hinv c p h''
          rw [assignParents_children]
          show c ∈ dgetD (dset st.children hd.id (rest.map Item.id)) p []
          unfold dgetD
          rw [dget_dset]
          by_cases hpa : p = hd.id
          · exfalso
            unfold dgetD at hcm
            rw [hpa, hf hd rest rfl] at hcm
            simp at hcm
          · rw [if_neg hpa]
            exact hcm

theorem tier4_fold_inv (groups : List (String × List Item)) (st : Rel)
    (hinv : ∀ c p, dget st.parents c = some p → c ∈ dgetD st.children p [])
    (hfresh : ∀ kg ∈ groups, ∀ hd rest, kg.2 = hd :: rest →
      dget st.children hd.id = none)
    (hdist : groups.Pairwise (fun kg kg2 => ∀ hd rest hd2 rest2,
      kg.2 = hd :: rest → kg2.2 = hd2 :: rest2 → hd.id ≠ hd2.id)) :
    ∀ c p, dget (groups.foldl tier4Step st).parents c = some p →
      c ∈ dgetD (groups.foldl tier4Step st).children p [] := by
  induction groups generalizing st with
  | nil => exact hinv
  | cons kg gs ih =>
    rw [List.foldl_cons]
    rw [List.pairwise_cons] at hdist
    refine ih _
      (tier4Step_inv hinv
        (fun hd rest hh => hfresh kg (List.mem_cons_self kg gs) hd rest hh))
      ?_ hdist.2
    intro kg2 hkg2 hd2 rest2 hh2
    rw [tier4Step_children_other
      (fun hd rest hh => hdist.1 kg2 hkg2 hd rest hd2 rest2 hh hh2)]
    exact hfresh kg2 (List.mem_cons_of_mem kg hkg2) hd2 rest2 hh2

/-! ### C3: amended claim -/

/-- C3 amended: the parents-to-children direction of the inverse
invariant holds for every collection with distinct ids: whenever
`parents[c] = p` in the result of `build_task_relationships`, `c` is
an element of `children[p]`.  (The converse direction is refuted by
the counterexample.) -/
theorem c3_amended_forward (items : List Item) (c p : String)
    (hnd : (items.map Item.id).Nodup)
    (h : dget (build_task_relationships items).parents c = some p) :
    c ∈ dgetD (build_task_relationships items).children p [] := by
  have hb : build_task_relationships items
      = classify items
          (if ((tier12 items).children.isEmpty && (tier12 items).parents.isEmpty) = true
           then tier4 (items.filter isTestCase)
             (tier3 (items.filter isRequirement) (items.filter isTestCase)
               (tier12 items))
           else tier12 items) := rfl
  by_cases hguard : ((tier12 items).children.isEmpty && (tier12 items).parents.isEmpty)
      = true
  · rw [hb, if_pos hguard] at h ⊢
    obtain ⟨hg1, hg2⟩ := (Bool.and_eq_true _ _).mp hguard
    have hch : (tier12 items).children = [] := List.isEmpty_iff.mp hg1
    have hpar : (tier12 items).parents = [] := List.isEmpty_iff.mp hg2
    obtain ⟨hcg, hpg⟩ := classify_graph items
      (tier4 (items.filter isTestCase)
        (tier3 (items.filter isRequirement) (items.filter isTestCase) (tier12 items)))
    rw [hpg] at h
    rw [hcg]
    have hinv1 : ∀ c' p', dget (tier12 items).parents c' = some p' →
        c' ∈ dgetD (tier12 items).children p' [] := by
      intro c' p' hcp
      rw [hpar] at hcp
      simp [dget] at hcp
    have hndR : (((items.filter isRequirement).map Item.id)).Nodup :=
      List.Nodup.sublist (List.Sublist.map Item.id (List.filter_sublist items)) hnd
    have hinv3 : ∀ c' p', dget (tier3 (items.filter isRequirement)
        (items.filter isTestCase) (tier12 items)).parents c' = some p' →
        c' ∈ dgetD (tier3 (items.filter isRequirement)
          (items.filter isTestCase) (tier12 items)).children p' [] :=
      tier3_inv _ _ _ hinv1 (fun _ _ => by rw [hch]; rfl) hndR
    rcases tier4_cases (items.filter isTestCase)
        (tier3 (items.filter isRequirement) (items.filter isTestCase) (tier12 items))
      with h4 | ⟨hc34, h4⟩
    · rw [h4] at h ⊢
      exact hinv3 c p h
    · rw [h4] at h ⊢
      have hkeys := test_id_groups_keys (items.filter isTestCase)
      have hpw : (test_id_groups (items.filter isTestCase)).Pairwise
          (fun kg kg2 => kg.1 ≠ kg2.1) := by
        have h1 : (List.map Prod.fst
            (test_id_groups (items.filter isTestCase))).Pairwise (fun a b => a ≠ b) :=
          hkeys.1
        rwa [List.pairwise_map] at h1
      have hdist : (test_id_groups (items.filter isTestCase)).Pairwise
          (fun kg kg2 => ∀ hd rest hd2 rest2,
            kg.2 = hd :: rest → kg2.2 = hd2 :: rest2 → hd.id ≠ hd2.id) := by
        refine List.Pairwise.imp_of_mem ?_ hpw
        intro kg kg2 hm1 hm2 hkne hd rest hd2 rest2 hh hh2 hide
        obtain ⟨hk1, hgf1⟩ := test_id_groups_entry
          (show (kg.1, hd :: rest) ∈ _ by rw [← hh, Prod.mk.eta]; exact hm1)
        obtain ⟨hk2, hgf2⟩ := test_id_groups_entry
          (show (kg2.1, hd2 :: rest2) ∈ _ by rw [← hh2, Prod.mk.eta]; exact hm2)
        have h1m : hd ∈ (items.filter isTestCase).filter
            (fun t => testId t = kg.1) := by
          rw [← hgf1]; exact List.mem_cons_self hd rest
        have h2m : hd2 ∈ (items.filter isTestCase).filter
            (fun t => testId t = kg2.1) := by
          rw [← hgf2]; exact List.mem_cons_self hd2 rest2
        have ht1 : testId hd = kg.1 := of_decide_eq_true (List.mem_filter.mp h1m).2
        have ht2 : testId hd2 = kg2.1 := of_decide_eq_true (List.mem_filter.mp h2m).2
        have hee : hd = hd2 := List.inj_on_of_nodup_map hnd
          (List.mem_of_mem_filter (List.mem_of_mem_filter h1m))
          (List.mem_of_mem_filter (List.mem_of_mem_filter h2m)) hide
        exact hkne (ht1.symm.trans (by rw [hee, ht2]))
      refine tier4_fold_inv _ _ hinv3 ?_ hdist c p h
      intro kg hkg hd rest hh
      rw [hc34]
      rfl
  · rw [hb, if_neg hguard] at h ⊢
    obtain ⟨hcg, hpg⟩ := classify_graph items (tier12 items)
    rw [hpg] at h
    rw [hcg]
    exact tier12_inv items c p h

/-- Witness for the amended C3 on the declared-links scenario that
refutes the converse direction. -/
theorem c3_witness :
    "B" ∈ dgetD (build_task_relationships
        [{ id := "A", number := some 1, sub_issues := [some 2] },
         { id := "B", number := some 2, parent := some 3 },
         { id := "C", number := some 3 }]).children "C" [] :=
  c3_amended_forward _ "B" "C" (by decide) (by decide)

/-! ### C1: counterexample -/

/-- C1 is false as stated: no edge insertion in
`build_task_relationships` checks ancestors, so two items that declare
each other as parent produce a relationship graph in which id `"A"` is
its own ancestor (A → B → A through `children_of`). -/
theorem c1_counterexample :
    isAncestor
      (build_task_relationships
        [{ id := "A", number := some 1, parent := some 2 },
         { id := "B", number := some 2, parent := some 1 }]) "A" "A" :=
  Relation.TransGen.head
    (show hasEdge
      (build_task_relationships
        [{ id := "A", number := some 1, parent := some 2 },
         { id := "B", number := some 2, parent := some 1 }]) "A" "B" by decide)
    (Relation.TransGen.single (by decide))

/-! ### C3: counterexample -/

/-- C3 is false in the children-to-parents direction: with item A
declaring B as sub-issue and B declaring C as parent, `"B"` is an
element of `children["A"]` while `parents["B"] = "C" ≠ "A"`. -/
theorem c3_counterexample :
    "B" ∈ dgetD (build_task_relationships
        [{ id := "A", number := some 1, sub_issues := [some 2] },
         { id := "B", number := some 2, parent := some 3 },
         { id := "C", number := some 3 }]).children "A" [] ∧
    dget (build_task_relationships
        [{ id := "A", number := some 1, sub_issues := [some 2] },
         { id := "B", number := some 2, parent := some 3 },
         { id := "C", number := some 3 }]).parents "B" ≠ some "A" := by
  decide

/-! ### C4: counterexample -/

/-- C4 is false: the code never compares the resolved parent id with
the item's own id, so an item whose declared parent reference resolves
to itself receives a self-edge, `parents["X"] = "X"` and
`"X" ∈ children["X"]`. -/
theorem c4_counterexample :
    dget (build_task_relationships
        [{ id := "X", number := some 5, parent := some 5 }]).parents "X" = some "X" ∧
    "X" ∈ dgetD (build_task_relationships
        [{ id := "X", number := some 5, parent := some 5 }]).children "X" [] := by
  decide

/-! ### C5: counterexample and amended claim -/

/-- C5 is false: in the spec's scenario the two lowered token sets
`{system, shall, log, errors}` and `{verify, that, error, logging,
works}` have empty intersection (the code compares whole tokens, so
"log" ≠ "logging" and "errors" ≠ "error"), hence Tier 3 adds no edge:
`children` has no entry for `"1"`, `parents` has no entry for `"2"`,
and `roots` is empty rather than `["1"]`. -/
theorem c5_counterexample :
    dget (build_task_relationships
        [{ id := "1", title := "System shall log errors",
           project_fields := [("Acceptance", "yes")] },
         { id := "2", title := "Verify that error logging works",
           project_fields := [("Test type", "Unit")] }]).children "1" = none ∧
    dget (build_task_relationships
        [{ id := "1", title := "System shall log errors",
           project_fields := [("Acceptance", "yes")] },
         { id := "2", title := "Verify that error logging works",
           project_fields := [("Test type", "Unit")] }]).parents "2" = none ∧
    (build_task_relationships
        [{ id := "1", title := "System shall log errors",
           project_fields := [("Acceptance", "yes")] },
         { id := "2", title := "Verify that error logging works",
           project_fields := [("Test type", "Unit")] }]).roots = [] := by
  decide

/-- C5 amended: on the spec's two-item scenario the exact-token
intersection is empty, so Tier 3 matches nothing, Tier 4 finds no
`Test ID`, and the result is the empty graph with both items orphans. -/
theorem c5_amended :
    build_task_relationships
        [{ id := "1", title := "System shall log errors",
           project_fields := [("Acceptance", "yes")] },
         { id := "2", title := "Verify that error logging works",
           project_fields := [("Test type", "Unit")] }] =
      { children := [], parents := [], roots := [], orphans := ["1", "2"] } := by
  decide

/-! ### C6: counterexample -/

/-- C6 is false: two items sharing `Test ID` `"TID-7"` but carrying no
test-classification marker are not in the `test_cases` bucket, so
Tier 4 never groups them; the result has no edges at all and both items
are orphans, not a synthetic parent with a child. -/
theorem c6_counterexample :
    (build_task_relationships
        [{ id := "1", project_fields := [("Test ID", "TID-7")] },
         { id := "2", project_fields := [("Test ID", "TID-7")] }]).children = [] ∧
    (build_task_relationships
        [{ id := "1", project_fields := [("Test ID", "TID-7")] },
         { id := "2", project_fields := [("Test ID", "TID-7")] }]).parents = [] ∧
    (build_task_relationships
        [{ id := "1", project_fields := [("Test ID", "TID-7")] },
         { id := "2", project_fields := [("Test ID", "TID-7")] }]).orphans = ["1", "2"] := by
  decide

end GetProjectTasks
